import Mathlib

/-!
Shallow embedding of `src/Lib/ufoProcessor/designspaceLib.py` (the designspace
document model: axes, locations, rules, sources, instances, reading is out of
scope here; normalization, default finding and the location/condition effects
of writing are embedded).  Python floats are modelled as rationals; Python
dicts keyed by axis name are modelled as association lists with first-match
lookup (the code only builds dicts with distinct keys); code that can raise
returns `Option`/`Except`.
-/

namespace UfoProcessor

/-- A value stored in a location dict: a scalar or an anisotropic pair. -/
inductive LocValue
  | num (q : ℚ)
  | pair (x y : ℚ)
deriving DecidableEq

/-- A Location: Python dict from axis name to value. -/
abbrev Loc := List (String × LocValue)

/-- Dict lookup, first binding wins. -/
def lookupKey {β : Type} (k : String) : List (String × β) → Option β
  | [] => none
  | p :: rest => if k = p.1 then some p.2 else lookupKey k rest

/-- AxisDescriptor (designspaceLib.py lines 304-319), the fields the embedded
operations read. -/
structure AxisDescriptor where
  tag : String
  name : String
  minimum : ℚ
  maximum : ℚ
  default : ℚ
  hidden : Bool
  map : List (ℚ × ℚ)
deriving DecidableEq

/-- One rule condition: the dicts built by the reader always carry all three
keys, with minimum and maximum possibly None (lines 689-714). -/
structure Condition where
  name : String
  minimum : Option ℚ
  maximum : Option ℚ
deriving DecidableEq

/-- RuleDescriptor (lines 159-177). -/
structure RuleDescriptor where
  name : Option String
  conditionSets : List (List Condition)
  subs : List (String × String)
deriving DecidableEq

/-- evaluateConditions (lines 185-200).  `location[cd.name]` raises KeyError
when the key is absent; comparing a number with None (both bounds absent) or
with a tuple raises TypeError in Python 3; both are modelled as `none`. -/
def evaluateConditions : List Condition → Loc → Option Bool
  | [], _ => some true
  | cd :: rest, location =>
    match lookupKey cd.name location with
    | none => none
    | some (LocValue.pair _ _) => none
    | some (LocValue.num value) =>
      match cd.minimum, cd.maximum with
      | none, none => none
      | none, some mx =>
        if mx < value then some false else evaluateConditions rest location
      | some mn, none =>
        if value < mn then some false else evaluateConditions rest location
      | some mn, some mx =>
        if mn ≤ value ∧ value ≤ mx then evaluateConditions rest location
        else some false

/-- Loop inside evaluateRule: Python `any` over a generator stops at the first
conditionset that evaluates to True, so later sets are not evaluated. -/
def evaluateRuleConditionSets : List (List Condition) → Loc → Option Bool
  | [], _ => some false
  | cs :: rest, location =>
    match evaluateConditions cs location with
    | none => none
    | some true => some true
    | some false => evaluateRuleConditionSets rest location

/-- evaluateRule (lines 180-182). -/
def evaluateRule (rule : RuleDescriptor) (location : Loc) : Option Bool :=
  evaluateRuleConditionSets rule.conditionSets location

/-- The inner loop of processRules over one name: scan the subs pairs and
take the replacement of the first pair whose first component equals the name
(the Python loop sets swap and breaks), else keep the name. -/
def substituteName : List (String × String) → String → String
  | [], name => name
  | ab :: rest, name => if name = ab.1 then ab.2 else substituteName rest name

/-- processRules (lines 203-222): each matching rule rewrites the whole
sequence in one pass and feeds the result to the next rule. -/
def processRules : List RuleDescriptor → Loc → List String → Option (List String)
  | [], _, glyphNames => some glyphNames
  | rule :: rest, location, glyphNames =>
    match evaluateRule rule location with
    | none => none
    | some true => processRules rest location (glyphNames.map (substituteName rule.subs))
    | some false => processRules rest location glyphNames

/-- The per-axis body of normalizeLocation (lines 1185-1199): anisotropic
pairs contribute their first component only. -/
def normalizeValue (axis : AxisDescriptor) (v0 : LocValue) : ℚ :=
  let v : ℚ := match v0 with
    | LocValue.num q => q
    | LocValue.pair x _ => x
  if v = axis.default then 0
  else if v < axis.default then
    if axis.default = axis.minimum then 0
    else (max v axis.minimum - axis.default) / (axis.default - axis.minimum)
  else
    if axis.default = axis.maximum then 0
    else (min v axis.maximum - axis.default) / (axis.maximum - axis.default)

/-- DesignSpaceDocument.normalizeLocation (lines 1175-1201): iterate the
declared axes in order, skip axes absent from the input location.  Axis names
are unique by document invariant; under a duplicated axis name the Python
dict assignment would keep the last write where this list model keeps the
first binding visible. -/
def normalizeLocation : List AxisDescriptor → Loc → Loc
  | [], _ => []
  | axis :: rest, location =>
    match lookupKey axis.name location with
    | none => normalizeLocation rest location
    | some v =>
      (axis.name, LocValue.num (normalizeValue axis v)) :: normalizeLocation rest location

/-- SourceDescriptor (lines 113-156), the fields the embedded operations
read. -/
structure SourceDescriptor where
  name : Option String
  location : Option Loc
  copyInfo : Bool
deriving DecidableEq

/-- One entry of a glyph override's masters list (reader lines 943-955). -/
structure GlyphMaster where
  font : Option String
  glyphName : Option String
  location : Option Loc
deriving DecidableEq

/-- A per-glyph override dict of an instance (reader lines 906-958).  The
`instanceLocation` and `masters` keys may be absent; absence is `none`. -/
structure GlyphData where
  mute : Bool
  instanceLocation : Option Loc
  masters : Option (List GlyphMaster)
deriving DecidableEq

/-- InstanceDescriptor (lines 225-264), the fields the embedded operations
read.  `glyphs` is the dict glyphName to override data. -/
structure InstanceDescriptor where
  name : Option String
  location : Option Loc
  glyphs : List (String × GlyphData)
deriving DecidableEq

/-- DesignSpaceDocument (lines 966-999), the fields the embedded operations
read. -/
structure Document where
  axes : List AxisDescriptor
  sources : List SourceDescriptor
  instances : List InstanceDescriptor
  rules : List RuleDescriptor
  defaultLoc : Option Loc
  default : Option SourceDescriptor
deriving DecidableEq

/-- newDefaultLocation (lines 1090-1096): every declared axis at its
default. -/
def newDefaultLocation (axes : List AxisDescriptor) : Loc :=
  axes.map fun a => (a.name, LocValue.num a.default)

/-- Python dict containment used by dict equality: every binding of a is a
binding of b. -/
def dictSubB (a b : Loc) : Bool :=
  a.all fun p => decide (lookupKey p.1 b = some p.2)

/-- Python dict equality: same keys, same values, order ignored. -/
def dictEqB (a b : Loc) : Bool :=
  dictSubB a b && dictSubB b a

/-- Python equality between possibly-None locations (None == None is True,
None == dict is False). -/
def optLocEqB : Option Loc → Option Loc → Bool
  | none, none => true
  | some a, some b => dictEqB a b
  | _, _ => false

/-- First loop of findDefault (lines 1142-1146): first source whose location
equals the document defaultLoc. -/
def findDefaultLoop1 (defaultLoc : Option Loc) : List SourceDescriptor → Option SourceDescriptor
  | [] => none
  | s :: rest =>
    if optLocEqB s.location defaultLoc then some s else findDefaultLoop1 defaultLoc rest

/-- Second loop of findDefault (lines 1148-1153): first source flagged
copyInfo. -/
def findDefaultLoop2 : List SourceDescriptor → Option SourceDescriptor
  | [] => none
  | s :: rest => if s.copyInfo then some s else findDefaultLoop2 rest

/-- DesignSpaceDocument.findDefault (lines 1138-1156): returns the chosen
source and the document whose default attribute was updated (it is first
reset to None, then set on success). -/
def findDefault (doc : Document) : Option SourceDescriptor × Document :=
  match findDefaultLoop1 doc.defaultLoc doc.sources with
  | some s => (some s, { doc with default := some s })
  | none =>
    match findDefaultLoop2 doc.sources with
    | some s => (some s, { doc with default := some s })
    | none => (none, { doc with default := none })

/-- Sequential traversal of a Python for loop whose body may raise: the first
exception aborts the whole loop. -/
def exceptMapList {α β : Type} (f : α → Except String β) : List α → Except String (List β)
  | [] => Except.ok []
  | a :: rest =>
    match f a with
    | Except.error e => Except.error e
    | Except.ok b =>
      match exceptMapList f rest with
      | Except.error e => Except.error e
      | Except.ok bs => Except.ok (b :: bs)

/-- normalizeLocation applied to a possibly-None location: with a non-empty
axes list, `axis.name in None` raises TypeError; with no axes the loop body
never runs and the empty dict is returned even for None. -/
def normalizeLocationE (axes : List AxisDescriptor) : Option Loc → Except String Loc
  | some l => Except.ok (normalizeLocation axes l)
  | none =>
    if axes.isEmpty then Except.ok []
    else Except.error "TypeError: argument of type NoneType is not iterable"

/-- The idiom `self.normalizeLocation(\x7bname: value\x7d).get(name)` used by
normalize (lines 1222, 1227-1229, 1241, 1245): None when no declared axis
carries the name. -/
def getNormalizedOpt (axes : List AxisDescriptor) (name : String) (v : ℚ) : Option ℚ :=
  match lookupKey name (normalizeLocation axes [(name, LocValue.num v)]) with
  | some (LocValue.num x) => some x
  | _ => none

/-- Same idiom where the result is stored into a float-valued axis field or
map entry; for an axis taken from the document's axes list the lookup always
succeeds, and the error branch marks the otherwise-unreachable case in which
None would be stored where a float is expected. -/
def getNormalized (axes : List AxisDescriptor) (name : String) (v : ℚ) : Except String ℚ :=
  match getNormalizedOpt axes name v with
  | some x => Except.ok x
  | none => Except.error "None stored into a numeric axis field"

/-- The axis loop of normalize (lines 1218-1233): axes are rescaled in place
one by one, so while processing one axis the preceding axes already hold
normalized bounds and the current and following axes still hold the original
ones; the current full list is `done ++ axis :: rest`.  The map outputs are
rescaled first (kept unchanged when the map is empty), then the three bounds
are computed from the original values and stored. -/
def normalizeAxesLoop (done : List AxisDescriptor) : List AxisDescriptor → Except String (List AxisDescriptor)
  | [] => Except.ok done
  | axis :: rest =>
    match exceptMapList (fun p =>
        match getNormalized (done ++ axis :: rest) axis.name p.2 with
        | Except.error e => Except.error e
        | Except.ok o => Except.ok (p.1, o)) axis.map with
    | Except.error e => Except.error e
    | Except.ok newMap =>
      match getNormalized (done ++ axis :: rest) axis.name axis.minimum with
      | Except.error e => Except.error e
      | Except.ok mn =>
        match getNormalized (done ++ axis :: rest) axis.name axis.maximum with
        | Except.error e => Except.error e
        | Except.ok mx =>
          match getNormalized (done ++ axis :: rest) axis.name axis.default with
          | Except.error e => Except.error e
          | Except.ok df =>
            normalizeAxesLoop
              (done ++ [{ axis with
                map := if newMap.isEmpty then axis.map else newMap
                minimum := mn, maximum := mx, default := df }])
              rest

/-- The per-axis effect of the normalize axis loop, stated independently of
the loop: the map outputs and the three bounds are each normalized against
the axis's own original bounds (an empty map stays empty either way). -/
def normalizeAxisSpec (axis : AxisDescriptor) : AxisDescriptor :=
  { axis with
    map := axis.map.map fun p => (p.1, normalizeValue axis (LocValue.num p.2))
    minimum := normalizeValue axis (LocValue.num axis.minimum)
    maximum := normalizeValue axis (LocValue.num axis.maximum)
    default := normalizeValue axis (LocValue.num axis.default) }

/-- The rule-condition rescaling of normalize (lines 1238-1248); it runs
after the axis loop, so it sees the already-normalized axes. -/
def normalizeCondition (axes : List AxisDescriptor) (cd : Condition) : Condition :=
  { name := cd.name
    minimum :=
      match cd.minimum with
      | none => none
      | some b => getNormalizedOpt axes cd.name b
    maximum :=
      match cd.maximum with
      | none => none
      | some b => getNormalizedOpt axes cd.name b }

/-- The rules loop of normalize (lines 1234-1250). -/
def normalizeRules (axes : List AxisDescriptor) (rules : List RuleDescriptor) : List RuleDescriptor :=
  rules.map fun r =>
    { r with conditionSets := r.conditionSets.map fun cs => cs.map (normalizeCondition axes) }

/-- One glyph master inside normalize (line 1214-1215):
`glyphMaster[location] = normalizeLocation(glyphMaster[location])`. -/
def normalizeGlyphMaster (axes : List AxisDescriptor) (m : GlyphMaster) : Except String GlyphMaster :=
  match normalizeLocationE axes m.location with
  | Except.error e => Except.error e
  | Except.ok l => Except.ok { m with location := some l }

/-- One glyph override inside normalize (lines 1212-1215): reading the
instanceLocation key raises KeyError when it is absent, then reading the
masters key raises KeyError when it is absent. -/
def normalizeGlyphData (axes : List AxisDescriptor) (g : GlyphData) : Except String GlyphData :=
  match g.instanceLocation with
  | none => Except.error "KeyError: instanceLocation"
  | some il =>
    match g.masters with
    | none => Except.error "KeyError: masters"
    | some ms =>
      match exceptMapList (normalizeGlyphMaster axes) ms with
      | Except.error e => Except.error e
      | Except.ok ms1 =>
        Except.ok { g with instanceLocation := some (normalizeLocation axes il), masters := some ms1 }

/-- One instance inside normalize (lines 1210-1216): the glyph overrides
are processed first, then the instance location. -/
def normalizeInstance (axes : List AxisDescriptor) (item : InstanceDescriptor) : Except String InstanceDescriptor :=
  match exceptMapList (fun p =>
      match normalizeGlyphData axes p.2 with
      | Except.error e => Except.error e
      | Except.ok g => Except.ok (p.1, g)) item.glyphs with
  | Except.error e => Except.error e
  | Except.ok glyphs1 =>
    match normalizeLocationE axes item.location with
    | Except.error e => Except.error e
    | Except.ok l => Except.ok { item with glyphs := glyphs1, location := some l }

/-- DesignSpaceDocument.normalize (lines 1203-1250): sources, then
instances, then the axes, then the rules (against the rescaled axes).  The
defaultLoc and default attributes are not touched. -/
def normalizeDocument (doc : Document) : Except String Document :=
  match exceptMapList (fun s =>
      match normalizeLocationE doc.axes s.location with
      | Except.error e => Except.error e
      | Except.ok l => Except.ok { s with location := some l }) doc.sources with
  | Except.error e => Except.error e
  | Except.ok sources1 =>
    match exceptMapList (normalizeInstance doc.axes) doc.instances with
    | Except.error e => Except.error e
    | Except.ok instances1 =>
      match normalizeAxesLoop [] doc.axes with
      | Except.error e => Except.error e
      | Except.ok axes1 =>
        Except.ok { doc with
          sources := sources1
          instances := instances1
          axes := axes1
          rules := normalizeRules axes1 doc.rules }

/-- The validatedLocation built by BaseDocWriter._makeLocationElement (lines
396-415): the default location, overridden at every declared axis name the
given location mentions; keys naming no declared axis are dropped.  The
method assigns this dict back over the object's location. -/
def validatedLocation (axes : List AxisDescriptor) (locationObject : Loc) : Loc :=
  axes.map fun a =>
    (a.name,
      match lookupKey a.name locationObject with
      | some v => v
      | none => LocValue.num a.default)

/-- Location effect of BaseDocWriter._addSource (lines 594-595):
`locationElement, sourceObject.location = self._makeLocationElement(sourceObject.location)`;
a None location raises (None.items()). -/
def writeSource (axes : List AxisDescriptor) (s : SourceDescriptor) : Except String SourceDescriptor :=
  match s.location with
  | none => Except.error "AttributeError: NoneType object has no attribute items"
  | some l => Except.ok { s with location := some (validatedLocation axes l) }

/-- Location effects of BaseDocWriter._writeGlyphElement (lines 609-628):
instanceLocation and the per-master locations are validated in place when
present. -/
def writeGlyphData (axes : List AxisDescriptor) (g : GlyphData) : GlyphData :=
  { g with
    instanceLocation := g.instanceLocation.map (validatedLocation axes)
    masters := g.masters.map (List.map fun m =>
      { m with location := m.location.map (validatedLocation axes) }) }

/-- Location effects of BaseDocWriter._addInstance (lines 520-538): the
instance location is validated in place when present, and each glyph
override is rewritten by _writeGlyphElement. -/
def writeInstance (axes : List AxisDescriptor) (i : InstanceDescriptor) : InstanceDescriptor :=
  { i with
    location := i.location.map (validatedLocation axes)
    glyphs := i.glyphs.map fun p => (p.1, writeGlyphData axes p.2) }

/-- The document-state effects of BaseDocWriter.write (lines 367-394) on the
stored locations: sources are written (and mutated) one by one, then
instances.  Writing axes and rules mutates no document state. -/
def writeDocument (doc : Document) : Except String Document :=
  match exceptMapList (writeSource doc.axes) doc.sources with
  | Except.error e => Except.error e
  | Except.ok sources1 =>
    Except.ok { doc with
      sources := sources1
      instances := doc.instances.map (writeInstance doc.axes) }

/-- The text printed for one numeric attribute: whether it contains a
decimal point, and the exact rational the printed characters denote. -/
structure NumText where
  hasDecimalPoint : Bool
  value : ℚ
deriving DecidableEq

/-- BaseDocWriter.intOrFloat (lines 417-420): an integral value is printed
with the d format (no decimal point, exact); any other value is printed with
the f format, which is fixed-point with exactly six digits after the decimal
point, i.e. the printed text denotes the nearest multiple of 1/1000000 (an
exact tie rounds up in this rational model). -/
def intOrFloat (num : ℚ) : NumText :=
  if num.den = 1 then ⟨false, num⟩
  else ⟨true, ((Rat.floor (num * 1000000 + 1 / 2) : ℤ) : ℚ) / 1000000⟩

/-- The inner condition loop of BaseDocWriter._addRule (lines 430-440): a
condition with neither bound defined is not added to the conditionset
element, the others are appended in order. -/
def addRuleKeptConditions : List Condition → List Condition
  | [] => []
  | cd :: rest =>
    if cd.minimum = none ∧ cd.maximum = none then addRuleKeptConditions rest
    else cd :: addRuleKeptConditions rest

/-- The conditionset loop of BaseDocWriter._addRule (lines 428-442): each
conditionset element is appended to the rule element only when it kept at
least one condition. -/
def addRuleConditionSetsList : List (List Condition) → List (List Condition)
  | [] => []
  | cs :: rest =>
    let kept := addRuleKeptConditions cs
    if kept.isEmpty then addRuleConditionSetsList rest
    else kept :: addRuleConditionSetsList rest

/-- The condition sets that _addRule emits for a rule. -/
def addRuleConditionSets (rule : RuleDescriptor) : List (List Condition) :=
  addRuleConditionSetsList rule.conditionSets

/-- Modelled from the spec: a single condition matches a location when the
value found at its axis name satisfies the given bounds, an absent bound
imposing no constraint (spec section 4.2).  Used to compare the spec's
description with `evaluateConditions`. -/
def specConditionMatches (cd : Condition) (loc : Loc) : Bool :=
  match lookupKey cd.name loc with
  | some (LocValue.num q) =>
    (match cd.minimum with
     | none => true
     | some mn => decide (mn ≤ q)) &&
    (match cd.maximum with
     | none => true
     | some mx => decide (q ≤ mx))
  | _ => true

/-- True when the location carries a scalar (non-pair) value at the name. -/
def scalarAtB (loc : Loc) (n : String) : Bool :=
  match lookupKey n loc with
  | some (LocValue.num _) => true
  | _ => false

/-- Wellformedness a condition needs for evaluateConditions not to raise at
a location: the axis key is present with a scalar value and at least one
bound is given. -/
def condWF (cd : Condition) (loc : Loc) : Prop :=
  scalarAtB loc cd.name = true ∧ (cd.minimum.isSome = true ∨ cd.maximum.isSome = true)

instance (cd : Condition) (loc : Loc) : Decidable (condWF cd loc) :=
  inferInstanceAs (Decidable
    (scalarAtB loc cd.name = true ∧ (cd.minimum.isSome = true ∨ cd.maximum.isSome = true)))

/-- A concrete weight axis, 0 to 1000 with default 400. -/
def wAxis : AxisDescriptor := ⟨"wght", "weight", 0, 1000, 400, false, []⟩

/-- The rule of the spec scenario: conditionset weight in 250 to 750,
substitution a to a.alt. -/
def scenarioRule : RuleDescriptor :=
  ⟨some "r", [[⟨"weight", some 250, some 750⟩]], [("a", "a.alt")]⟩

/-- A condition with neither bound. -/
def unboundedCond : Condition := ⟨"weight", none, none⟩

/-- A location carrying only the weight axis at 0. -/
def weight0Loc : Loc := [("weight", LocValue.num 0)]

/-- A source sitting at the default location of wAxis. -/
def defaultSrc : SourceDescriptor := ⟨some "m", some [("weight", LocValue.num 400)], false⟩

/-- A document whose defaultLoc is the all-axes-at-default location. -/
def c4doc : Document :=
  ⟨[wAxis], [defaultSrc], [], [], some [("weight", LocValue.num 400)], none⟩

/-- A one-axis document with an axis map entry, for the normalize witness
(the axis is degenerate so every normalized value is produced by the
zero-division guards, which keeps the whole computation kernel-evaluable). -/
def c7doc : Document :=
  ⟨[⟨"wght", "weight", 400, 400, 400, false, [(100, 400)]⟩], [], [], [], none, none⟩

/-- The document c7doc after normalize: the map output 400 and all three
bounds collapse to 0. -/
def c7doc1 : Document :=
  ⟨[⟨"wght", "weight", 0, 0, 0, false, [(100, 0)]⟩], [], [], [], none, none⟩

/-- A document whose only source mentions an undeclared axis, so that
writing it visibly rewrites the stored location. -/
def c8doc : Document :=
  ⟨[wAxis], [⟨some "m", some [("width", LocValue.num 100)], false⟩], [], [], none, none⟩

/-- A document whose only source carries a complete location over the
declared axes, which writing leaves unchanged. -/
def c8gooddoc : Document :=
  ⟨[wAxis], [⟨some "m", some [("weight", LocValue.num 700)], false⟩], [], [], none, none⟩

/-- A glyph override that only mutes the glyph: no instanceLocation and no
masters entry. -/
def muteOnlyGlyph : GlyphData := ⟨true, none, none⟩

/-- An instance carrying the mute-only glyph override. -/
def muteOnlyInst : InstanceDescriptor := ⟨some "i", some [], [("x", muteOnlyGlyph)]⟩

/-- A document containing the instance with the mute-only glyph override. -/
def c10doc : Document := ⟨[wAxis], [], [muteOnlyInst], [], none, none⟩

/-! Helper lemmas shared by the claim theorems. -/

theorem lookup_normalizeLocation_of_mem (axis : AxisDescriptor) (axes : List AxisDescriptor)
    (loc : Loc) (v : LocValue) (hnd : (axes.map AxisDescriptor.name).Nodup)
    (hmem : axis ∈ axes) (hl : lookupKey axis.name loc = some v) :
    lookupKey axis.name (normalizeLocation axes loc)
      = some (LocValue.num (normalizeValue axis v)) := by
  induction axes with
  | nil => cases hmem
  | cons a rest ih =>
    simp only [List.map_cons, List.nodup_cons] at hnd
    rcases List.mem_cons.mp hmem with h | h
    · subst h
      simp [normalizeLocation, hl, lookupKey]
    · have hne : axis.name ≠ a.name := by
        intro e
        exact hnd.1 (e ▸ List.mem_map_of_mem AxisDescriptor.name h)
      cases hcase : lookupKey a.name loc with
      | none =>
        simp only [normalizeLocation, hcase]
        exact ih hnd.2 h
      | some w =>
        simp only [normalizeLocation, hcase, lookupKey, if_neg hne]
        exact ih hnd.2 h

theorem exceptMapList_ok_of_forall {α β : Type} (f : α → Except String β) (g : α → β)
    (l : List α) (h : ∀ a ∈ l, f a = Except.ok (g a)) :
    exceptMapList f l = Except.ok (l.map g) := by
  induction l with
  | nil => rfl
  | cons a rest ih =>
    have ha := h a (List.mem_cons_self a rest)
    have hr := ih fun x hx => h x (List.mem_cons_of_mem a hx)
    simp only [exceptMapList, ha, hr, List.map_cons]

theorem exceptMapList_ok_forall {α β : Type} (f : α → Except String β)
    (l : List α) (ys : List β) (h : exceptMapList f l = Except.ok ys) :
    ∀ a ∈ l, ∃ b, f a = Except.ok b := by
  induction l generalizing ys with
  | nil => intro a ha; cases ha
  | cons x rest ih =>
    intro a ha
    cases hx : f x with
    | error e => rw [exceptMapList, hx] at h; cases h
    | ok b =>
      cases hr : exceptMapList f rest with
      | error e => rw [exceptMapList, hx, hr] at h; cases h
      | ok bs =>
        rcases List.mem_cons.mp ha with h1 | h1
        · exact ⟨b, h1 ▸ hx⟩
        · exact ih bs hr a h1

/-- C1: normalizeLocation maps an axis default to 0; an anisotropic pair is
normalized through its first component; a value below the default is clamped
from below by the minimum and scaled into the interval from -1 to 0, a value
above the default is clamped from above by the maximum and scaled into the
interval from 0 to 1; and the degenerate halves (default equal to minimum,
respectively to maximum) yield 0 instead of dividing by zero.  The last
conjunct ties the per-axis computation to normalizeLocation itself. -/
theorem C1_normalizeLocation_branches (axis : AxisDescriptor)
    (hmin : axis.minimum ≤ axis.default) (hmax : axis.default ≤ axis.maximum) :
    normalizeValue axis (LocValue.num axis.default) = 0
    ∧ (∀ x y : ℚ, normalizeValue axis (LocValue.pair x y) = normalizeValue axis (LocValue.num x))
    ∧ (∀ v : ℚ, v < axis.default →
        (axis.default = axis.minimum → normalizeValue axis (LocValue.num v) = 0)
        ∧ (axis.default ≠ axis.minimum →
            normalizeValue axis (LocValue.num v)
              = (max v axis.minimum - axis.default) / (axis.default - axis.minimum))
        ∧ -1 ≤ normalizeValue axis (LocValue.num v)
        ∧ normalizeValue axis (LocValue.num v) ≤ 0)
    ∧ (∀ v : ℚ, axis.default < v →
        (axis.default = axis.maximum → normalizeValue axis (LocValue.num v) = 0)
        ∧ (axis.default ≠ axis.maximum →
            normalizeValue axis (LocValue.num v)
              = (min v axis.maximum - axis.default) / (axis.maximum - axis.default))
        ∧ 0 ≤ normalizeValue axis (LocValue.num v)
        ∧ normalizeValue axis (LocValue.num v) ≤ 1)
    ∧ (∀ (axes : List AxisDescriptor) (loc : Loc) (v : LocValue),
        (axes.map AxisDescriptor.name).Nodup → axis ∈ axes →
        lookupKey axis.name loc = some v →
        lookupKey axis.name (normalizeLocation axes loc)
          = some (LocValue.num (normalizeValue axis v))) := by
  refine ⟨?_, ?_, ?_, ?_, ?_⟩
  · simp [normalizeValue]
  · intro x y; rfl
  · intro v hv
    have hvne : v ≠ axis.default := ne_of_lt hv
    have hnv : normalizeValue axis (LocValue.num v)
        = if axis.default = axis.minimum then 0
          else (max v axis.minimum - axis.default) / (axis.default - axis.minimum) := by
      simp only [normalizeValue]
      rw [if_neg hvne, if_pos hv]
    refine ⟨fun h => by rw [hnv, if_pos h], fun h => by rw [hnv, if_neg h], ?_, ?_⟩
    · by_cases h : axis.default = axis.minimum
      · rw [hnv, if_pos h]; norm_num
      · rw [hnv, if_neg h]
        have hlt : axis.minimum < axis.default := lt_of_le_of_ne hmin fun e => h e.symm
        have hden : 0 < axis.default - axis.minimum := by linarith
        rw [le_div_iff₀ hden]
        have := le_max_right v axis.minimum
        linarith
    · by_cases h : axis.default = axis.minimum
      · rw [hnv, if_pos h]
      · rw [hnv, if_neg h]
        have hlt : axis.minimum < axis.default := lt_of_le_of_ne hmin fun e => h e.symm
        have hden : 0 < axis.default - axis.minimum := by linarith
        have hnum : max v axis.minimum - axis.default ≤ 0 := by
          have := max_le (le_of_lt hv) hmin
          linarith
        exact div_nonpos_of_nonpos_of_nonneg hnum (le_of_lt hden)
  · intro v hv
    have hvne : v ≠ axis.default := ne_of_gt hv
    have hvnotlt : ¬ v < axis.default := not_lt_of_gt hv
    have hnv : normalizeValue axis (LocValue.num v)
        = if axis.default = axis.maximum then 0
          else (min v axis.maximum - axis.default) / (axis.maximum - axis.default) := by
      simp only [normalizeValue]
      rw [if_neg hvne, if_neg hvnotlt]
    refine ⟨fun h => by rw [hnv, if_pos h], fun h => by rw [hnv, if_neg h], ?_, ?_⟩
    · by_cases h : axis.default = axis.maximum
      · rw [hnv, if_pos h]
      · rw [hnv, if_neg h]
        have hlt : axis.default < axis.maximum := lt_of_le_of_ne hmax h
        have hden : 0 < axis.maximum - axis.default := by linarith
        have hnum : 0 ≤ min v axis.maximum - axis.default := by
          have := le_min (le_of_lt hv) hmax
          linarith
        exact div_nonneg hnum (le_of_lt hden)
    · by_cases h : axis.default = axis.maximum
      · rw [hnv, if_pos h]; norm_num
      · rw [hnv, if_neg h]
        have hlt : axis.default < axis.maximum := lt_of_le_of_ne hmax h
        have hden : 0 < axis.maximum - axis.default := by linarith
        rw [div_le_one hden]
        have := min_le_right v axis.maximum
        linarith
  · intro axes loc v hnd hmem hl
    exact lookup_normalizeLocation_of_mem axis axes loc v hnd hmem hl

/-- Witness for C1 at the concrete weight axis. -/
theorem C1_normalizeLocation_branches_witness :
    normalizeValue wAxis (LocValue.num wAxis.default) = 0 :=
  (C1_normalizeLocation_branches wAxis (by decide) (by decide)).1

/-- C5: the result of normalizeLocation carries exactly the axis names that
are both declared and present in the input location; an absent axis is
omitted, never defaulted, and an undeclared key never appears. -/
theorem C5_normalizeLocation_domain (axes : List AxisDescriptor) (loc : Loc) (n : String) :
    (lookupKey n (normalizeLocation axes loc)).isSome = true
      ↔ (n ∈ axes.map AxisDescriptor.name ∧ (lookupKey n loc).isSome = true) := by
  induction axes with
  | nil => simp [normalizeLocation, lookupKey]
  | cons a rest ih =>
    by_cases hn : n = a.name
    · cases hcase : lookupKey a.name loc with
      | none =>
        have hnl : lookupKey n loc = none := by rw [hn]; exact hcase
        simp only [normalizeLocation, hcase, List.map_cons]
        rw [ih, hnl]
        simp
      | some v =>
        have hnl : lookupKey n loc = some v := by rw [hn]; exact hcase
        simp only [normalizeLocation, hcase, List.map_cons, lookupKey, if_pos hn]
        simp [hn, hnl, hcase]
    · cases hcase : lookupKey a.name loc with
      | none =>
        simp only [normalizeLocation, hcase, List.map_cons]
        rw [ih]
        simp [List.mem_cons, hn]
      | some v =>
        simp only [normalizeLocation, hcase, List.map_cons, lookupKey, if_neg hn]
        rw [ih]
        simp [List.mem_cons, hn]

/-- C2: processRules applies the rules in list order, a matching rule (per
evaluateRule) rewrites every position by the second component of the first
subs pair whose first component equals that name, an unmatched name passes
through, the output of each rule is the input of the next; and the spec
scenario at weight 500 and weight 900 behaves as stated. -/
theorem C2_processRules_order :
    (∀ (rule : RuleDescriptor) (rest : List RuleDescriptor) (loc : Loc) (names : List String),
        evaluateRule rule loc = some true →
        processRules (rule :: rest) loc names
          = processRules rest loc (names.map (substituteName rule.subs)))
    ∧ (∀ (rule : RuleDescriptor) (rest : List RuleDescriptor) (loc : Loc) (names : List String),
        evaluateRule rule loc = some false →
        processRules (rule :: rest) loc names = processRules rest loc names)
    ∧ (∀ (l1 l2 : List (String × String)) (a b name : String),
        (∀ p ∈ l1, p.1 ≠ name) → name = a →
        substituteName (l1 ++ (a, b) :: l2) name = b)
    ∧ (∀ (subs : List (String × String)) (name : String),
        (∀ p ∈ subs, p.1 ≠ name) → substituteName subs name = name)
    ∧ processRules [scenarioRule] [("weight", LocValue.num 500)] ["a", "b"]
        = some ["a.alt", "b"]
    ∧ processRules [scenarioRule] [("weight", LocValue.num 900)] ["a", "b"]
        = some ["a", "b"] := by
  refine ⟨?_, ?_, ?_, ?_, ?_, ?_⟩
  · intro rule rest loc names h
    simp only [processRules, h]
  · intro rule rest loc names h
    simp only [processRules, h]
  · intro l1 l2 a b name h1 h2
    induction l1 with
    | nil => simp [substituteName, h2]
    | cons p l1 ih =>
      have hp : name ≠ p.1 := Ne.symm (h1 p (List.mem_cons_self p l1))
      simp only [List.cons_append, substituteName, if_neg hp]
      exact ih fun q hq => h1 q (List.mem_cons_of_mem p hq)
  · intro subs name h
    induction subs with
    | nil => rfl
    | cons p rest ih =>
      have hp : name ≠ p.1 := Ne.symm (h p (List.mem_cons_self p rest))
      simp only [substituteName, if_neg hp]
      exact ih fun q hq => h q (List.mem_cons_of_mem p hq)
  · decide
  · decide

/-- Witness for C2: the first conjunct applied to the scenario rule at the
matching location. -/
theorem C2_processRules_order_witness :
    processRules [scenarioRule] [("weight", LocValue.num 500)] ["a", "b"]
      = processRules [] [("weight", LocValue.num 500)]
          (["a", "b"].map (substituteName scenarioRule.subs)) :=
  C2_processRules_order.1 scenarioRule [] [("weight", LocValue.num 500)] ["a", "b"] (by decide)

/-- Counterexample for C3: a condition with neither bound given, at a
location that does carry the condition's axis name with a scalar value.  By
the claim the condition imposes no constraint, so evaluateConditions should
return True; the code instead compares the value against None and raises a
TypeError (modelled as none). -/
theorem C3_counterexample :
    (lookupKey unboundedCond.name weight0Loc).isSome = true
    ∧ specConditionMatches unboundedCond weight0Loc = true
    ∧ evaluateConditions [unboundedCond] weight0Loc = none := by
  decide

theorem evaluateConditions_eq_all (loc : Loc) (conditions : List Condition)
    (h : ∀ cd ∈ conditions, condWF cd loc) :
    evaluateConditions conditions loc
      = some (conditions.all fun cd => specConditionMatches cd loc) := by
  induction conditions with
  | nil => rfl
  | cons cd rest ih =>
    obtain ⟨hscalar, hbound⟩ := h cd (List.mem_cons_self cd rest)
    have hrest := ih fun c hc => h c (List.mem_cons_of_mem cd hc)
    unfold scalarAtB at hscalar
    cases hlook : lookupKey cd.name loc with
    | none => rw [hlook] at hscalar; cases hscalar
    | some v =>
      cases v with
      | pair x y => rw [hlook] at hscalar; cases hscalar
      | num q =>
        cases hmn : cd.minimum with
        | none =>
          cases hmx : cd.maximum with
          | none => rw [hmn, hmx] at hbound; simp at hbound
          | some mx =>
            by_cases hq : mx < q
            · have hq2 : ¬ q ≤ mx := not_le_of_gt hq
              simp [evaluateConditions, hlook, hmn, hmx, hq, List.all_cons,
                specConditionMatches, hq2]
            · have hq2 : q ≤ mx := le_of_not_lt hq
              simp [evaluateConditions, hlook, hmn, hmx, hq, List.all_cons,
                specConditionMatches, hq2, hrest]
        | some mn =>
          cases hmx : cd.maximum with
          | none =>
            by_cases hq : q < mn
            · have hq2 : ¬ mn ≤ q := not_le_of_gt hq
              simp [evaluateConditions, hlook, hmn, hmx, hq, List.all_cons,
                specConditionMatches, hq2]
            · have hq2 : mn ≤ q := le_of_not_lt hq
              simp [evaluateConditions, hlook, hmn, hmx, hq, List.all_cons,
                specConditionMatches, hq2, hrest]
          | some mx =>
            by_cases hq : mn ≤ q ∧ q ≤ mx
            · simp [evaluateConditions, hlook, hmn, hmx, hq, List.all_cons,
                specConditionMatches, hq.1, hq.2, hrest]
            · rcases Decidable.not_and_iff_or_not.mp hq with h1 | h1
              · simp [evaluateConditions, hlook, hmn, hmx, hq, List.all_cons,
                  specConditionMatches, h1]
              · simp [evaluateConditions, hlook, hmn, hmx, hq, List.all_cons,
                  specConditionMatches, h1]

theorem evaluateRuleConditionSets_exists (loc : Loc) (sets : List (List Condition))
    (h : ∀ cs ∈ sets, ∀ cd ∈ cs, condWF cd loc) :
    (evaluateRuleConditionSets sets loc = some true
      ↔ ∃ cs ∈ sets, evaluateConditions cs loc = some true) := by
  induction sets with
  | nil => simp [evaluateRuleConditionSets]
  | cons cs rest ih =>
    have hcs := evaluateConditions_eq_all loc cs (h cs (List.mem_cons_self cs rest))
    have hrest := ih fun c hc cd hcd => h c (List.mem_cons_of_mem cs hc) cd hcd
    cases hall : (cs.all fun cd => specConditionMatches cd loc) with
    | true =>
      rw [hall] at hcs
      simp [evaluateRuleConditionSets, hcs]
    | false =>
      rw [hall] at hcs
      simp only [evaluateRuleConditionSets, hcs]
      rw [hrest]
      constructor
      · rintro ⟨c, hc, he⟩
        exact ⟨c, List.mem_cons_of_mem cs hc, he⟩
      · rintro ⟨c, hc, he⟩
        rcases List.mem_cons.mp hc with h1 | h1
        · subst h1; rw [hcs] at he; cases he
        · exact ⟨c, h1, he⟩

/-- C3 amended: provided every condition carries at least one bound and the
location carries a scalar value at every condition's axis name,
evaluateConditions returns True exactly when each condition whose minimum is
given satisfies minimum le value and each condition whose maximum is given
satisfies value le maximum; and evaluateRule returns True exactly when at
least one of the rule's conditionSets evaluates to True.  Without the
at-least-one-bound proviso the code raises instead of returning (see the
counterexample). -/
theorem C3_amended_evaluate (loc : Loc) :
    (∀ conditions : List Condition, (∀ cd ∈ conditions, condWF cd loc) →
      (evaluateConditions conditions loc = some true
        ↔ (conditions.all fun cd => specConditionMatches cd loc) = true))
    ∧ (∀ rule : RuleDescriptor, (∀ cs ∈ rule.conditionSets, ∀ cd ∈ cs, condWF cd loc) →
      (evaluateRule rule loc = some true
        ↔ ∃ cs ∈ rule.conditionSets, evaluateConditions cs loc = some true)) := by
  constructor
  · intro conditions h
    rw [evaluateConditions_eq_all loc conditions h]
    constructor
    · intro he
      cases hall : (conditions.all fun cd => specConditionMatches cd loc) with
      | true => rfl
      | false => rw [hall] at he; cases he
    · intro he; rw [he]
  · intro rule h
    exact evaluateRuleConditionSets_exists loc rule.conditionSets h

/-- Witness for C3: the amended theorem applied to a bounded condition at a
concrete location. -/
theorem C3_amended_evaluate_witness :
    evaluateConditions [⟨"weight", some 250, some 750⟩] [("weight", LocValue.num 500)]
      = some true :=
  ((C3_amended_evaluate [("weight", LocValue.num 500)]).1
    [⟨"weight", some 250, some 750⟩] (by decide)).mpr (by decide)

theorem findDefaultLoop1_eq_find (dl : Option Loc) (l : List SourceDescriptor) :
    findDefaultLoop1 dl l = l.find? fun s => optLocEqB s.location dl := by
  induction l with
  | nil => rfl
  | cons s rest ih =>
    cases h : optLocEqB s.location dl with
    | true => simp [findDefaultLoop1, List.find?, h]
    | false => simp [findDefaultLoop1, List.find?, h, ih]

theorem findDefaultLoop2_eq_find (l : List SourceDescriptor) :
    findDefaultLoop2 l = l.find? fun s => s.copyInfo := by
  induction l with
  | nil => rfl
  | cons s rest ih =>
    cases h : s.copyInfo with
    | true => simp [findDefaultLoop2, List.find?, h]
    | false => simp [findDefaultLoop2, List.find?, h, ih]

/-- C4: when the document's cached defaultLoc is the all-axes-at-default
location, findDefault returns the first source whose location equals it,
failing that the first source flagged copyInfo, failing both none (the
model is total, so no error is raised), and in every case the returned
value is what ends up stored in the document's default attribute. -/
theorem C4_findDefault_priority (doc : Document)
    (h : doc.defaultLoc = some (newDefaultLocation doc.axes)) :
    (findDefault doc).1
      = Option.orElse
          (doc.sources.find? fun s => optLocEqB s.location (some (newDefaultLocation doc.axes)))
          (fun _ => doc.sources.find? fun s => s.copyInfo)
    ∧ (findDefault doc).2.default = (findDefault doc).1 := by
  unfold findDefault
  rw [h, findDefaultLoop1_eq_find, findDefaultLoop2_eq_find]
  cases h1 : doc.sources.find? fun s => optLocEqB s.location (some (newDefaultLocation doc.axes)) with
  | some s => exact ⟨rfl, rfl⟩
  | none =>
    cases h2 : doc.sources.find? fun s => s.copyInfo with
    | some s => exact ⟨rfl, rfl⟩
    | none => exact ⟨rfl, rfl⟩

/-- Witness for C4 at a concrete one-axis document whose source sits at the
default location. -/
theorem C4_findDefault_priority_witness :
    (findDefault c4doc).2.default = (findDefault c4doc).1 :=
  (C4_findDefault_priority c4doc (by decide)).2

theorem den_ne_one_of_pos_of_lt_one (q : ℚ) (h0 : 0 < q) (h1 : q < 1) : q.den ≠ 1 := by
  intro h
  have he := Rat.coe_int_num_of_den_eq_one h
  have h2 : (0 : ℚ) < (q.num : ℚ) := he ▸ h0
  have h3 : ((q.num : ℚ)) < 1 := he ▸ h1
  have h4 : 0 < q.num := by exact_mod_cast h2
  have h5 : q.num < 1 := by exact_mod_cast h3
  omega

theorem ratFloor_eq_intFloor (q : ℚ) : Rat.floor q = ⌊q⌋ := by
  rw [Rat.floor_def', Rat.floor_def]

/-- Counterexample for C6: the value 1/100000000 is not an integer, so it is
printed with the f format; the printed text denotes 0, and re-reading does
not recover the original number, contradicting full-precision round-trip
stability. -/
theorem C6_counterexample :
    (intOrFloat (1 / 100000000)).hasDecimalPoint = true
    ∧ (intOrFloat (1 / 100000000)).value ≠ 1 / 100000000 := by
  have hden : ((1 : ℚ) / 100000000).den ≠ 1 :=
    den_ne_one_of_pos_of_lt_one _ (by norm_num) (by norm_num)
  have harg : (1 : ℚ) / 100000000 * 1000000 + 1 / 2 = 51 / 100 := by norm_num
  have hfl : Rat.floor ((1 : ℚ) / 100000000 * 1000000 + 1 / 2) = 0 := by
    rw [ratFloor_eq_intFloor, harg, Int.floor_eq_zero_iff, Set.mem_Ico]
    constructor <;> norm_num
  constructor
  · simp [intOrFloat, hden]
  · simp only [intOrFloat, hden, if_false]
    rw [hfl]
    norm_num

/-- C6 amended: an integral value is printed without a decimal point and
round-trips exactly; every other value is printed in fixed-point with six
fractional digits, so re-reading recovers the value rounded to the nearest
multiple of 1/1000000, which is the original number exactly when that
number is such a multiple (not for arbitrary values). -/
theorem C6_intOrFloat_format (num : ℚ) :
    (num.den = 1 → intOrFloat num = ⟨false, num⟩)
    ∧ (num.den ≠ 1 →
        (intOrFloat num).hasDecimalPoint = true
        ∧ (intOrFloat num).value = ((round (num * 1000000) : ℤ) : ℚ) / 1000000)
    ∧ ((num * 1000000).den = 1 → (intOrFloat num).value = num) := by
  refine ⟨?_, ?_, ?_⟩
  · intro h; simp [intOrFloat, h]
  · intro h
    constructor
    · simp [intOrFloat, h]
    · simp only [intOrFloat, h, if_false]
      rw [round_eq, ← ratFloor_eq_intFloor]
  · intro h
    by_cases hd : num.den = 1
    · simp [intOrFloat, hd]
    · have hint : ((num * 1000000).num : ℚ) = num * 1000000 :=
        Rat.coe_int_num_of_den_eq_one h
      have hfl : Rat.floor (num * 1000000 + 1 / 2) = (num * 1000000).num := by
        rw [ratFloor_eq_intFloor]
        nth_rewrite 1 [← hint]
        rw [Int.floor_int_add]
        have h12 : ⌊(1 / 2 : ℚ)⌋ = 0 := by
          rw [Int.floor_eq_zero_iff, Set.mem_Ico]
          constructor <;> norm_num
        rw [h12, add_zero]
      simp only [intOrFloat, hd, if_false]
      rw [hfl, hint]
      field_simp

/-- Witness for C6: the amended theorem applied at 1/2, a multiple of
1/1000000, which round-trips exactly. -/
theorem C6_intOrFloat_format_witness :
    (intOrFloat (1 / 2)).value = 1 / 2 :=
  (C6_intOrFloat_format (1 / 2)).2.2 (by norm_num)

theorem addRuleKeptConditions_eq_filter (conds : List Condition) :
    addRuleKeptConditions conds
      = conds.filter fun cd => cd.minimum.isSome || cd.maximum.isSome := by
  induction conds with
  | nil => rfl
  | cons cd rest ih =>
    by_cases h : cd.minimum = none ∧ cd.maximum = none
    · have hb : (cd.minimum.isSome || cd.maximum.isSome) = false := by
        rw [h.1, h.2]; rfl
      simp [addRuleKeptConditions, h, List.filter_cons, hb, ih]
    · have hb : (cd.minimum.isSome || cd.maximum.isSome) = true := by
        rcases Decidable.not_and_iff_or_not.mp h with h1 | h1
        · cases hm : cd.minimum with
          | none => exact absurd hm h1
          | some x => simp [hm]
        · cases hm : cd.maximum with
          | none => exact absurd hm h1
          | some x => simp [hm]
      simp [addRuleKeptConditions, h, List.filter_cons, hb, ih]

/-- C9: writing a rule drops every condition with neither bound and keeps
every condition with at least one bound, and a condition set all of whose
conditions were dropped is itself omitted; equivalently the written
condition sets are the per-set filtrations by has-a-bound with the emptied
sets removed, and every written condition has a bound. -/
theorem C9_addRule_drops_unbounded (rule : RuleDescriptor) :
    addRuleConditionSets rule
      = (rule.conditionSets.map fun cs =>
          cs.filter fun cd => cd.minimum.isSome || cd.maximum.isSome).filter
            (fun cs => !cs.isEmpty)
    ∧ ∀ cs ∈ addRuleConditionSets rule,
        cs ≠ [] ∧ ∀ cd ∈ cs, cd.minimum.isSome = true ∨ cd.maximum.isSome = true := by
  have hmain : ∀ sets : List (List Condition),
      addRuleConditionSetsList sets
        = (sets.map fun cs =>
            cs.filter fun cd => cd.minimum.isSome || cd.maximum.isSome).filter
              (fun cs => !cs.isEmpty) := by
    intro sets
    induction sets with
    | nil => rfl
    | cons cs rest ih =>
      cases h : (addRuleKeptConditions cs).isEmpty with
      | true =>
        have h2 : (cs.filter fun cd => cd.minimum.isSome || cd.maximum.isSome).isEmpty = true := by
          rw [← addRuleKeptConditions_eq_filter]; exact h
        simp [addRuleConditionSetsList, h, List.filter_cons, h2, ih]
      | false =>
        have h2 : (cs.filter fun cd => cd.minimum.isSome || cd.maximum.isSome).isEmpty = false := by
          rw [← addRuleKeptConditions_eq_filter]; exact h
        simp [addRuleConditionSetsList, h, List.filter_cons, h2, ih,
          addRuleKeptConditions_eq_filter]
  constructor
  · exact hmain rule.conditionSets
  · intro cs hcs
    unfold addRuleConditionSets at hcs
    rw [hmain rule.conditionSets] at hcs
    have hmem := List.mem_filter.mp hcs
    constructor
    · intro he
      rw [he] at hmem
      simp at hmem
    · intro cd hcd
      rcases List.mem_map.mp hmem.1 with ⟨cs0, _, hcs0⟩
      rw [← hcs0] at hcd
      have := (List.mem_filter.mp hcd).2
      rcases Bool.or_eq_true_iff.mp this with h1 | h1
      · exact Or.inl h1
      · exact Or.inr h1

theorem getNormalized_of_unique (axes : List AxisDescriptor) (axis : AxisDescriptor)
    (hnd : (axes.map AxisDescriptor.name).Nodup) (hmem : axis ∈ axes) (v : ℚ) :
    getNormalized axes axis.name v = Except.ok (normalizeValue axis (LocValue.num v)) := by
  unfold getNormalized getNormalizedOpt
  rw [lookup_normalizeLocation_of_mem axis axes [(axis.name, LocValue.num v)]
    (LocValue.num v) hnd hmem (by simp [lookupKey])]

theorem normalizeAxesLoop_ok (todo : List AxisDescriptor) :
    ∀ done : List AxisDescriptor, (((done ++ todo).map AxisDescriptor.name).Nodup) →
    normalizeAxesLoop done todo = Except.ok (done ++ todo.map normalizeAxisSpec) := by
  induction todo with
  | nil => intro done _; simp [normalizeAxesLoop]
  | cons axis rest ih =>
    intro done hnd
    have hmem : axis ∈ done ++ axis :: rest := by simp
    have hget : ∀ v : ℚ, getNormalized (done ++ axis :: rest) axis.name v
        = Except.ok (normalizeValue axis (LocValue.num v)) :=
      fun v => getNormalized_of_unique _ _ hnd hmem v
    have hmap : exceptMapList (fun p =>
        match getNormalized (done ++ axis :: rest) axis.name p.2 with
        | Except.error e => Except.error e
        | Except.ok o => Except.ok (p.1, o)) axis.map
        = Except.ok (axis.map.map fun p => (p.1, normalizeValue axis (LocValue.num p.2))) := by
      apply exceptMapList_ok_of_forall
      intro p _
      rw [hget p.2]
    have hif : (if (axis.map.map fun p =>
          (p.1, normalizeValue axis (LocValue.num p.2))).isEmpty then axis.map
        else axis.map.map fun p => (p.1, normalizeValue axis (LocValue.num p.2)))
        = axis.map.map fun p => (p.1, normalizeValue axis (LocValue.num p.2)) := by
      cases axis.map with
      | nil => simp
      | cons p l => simp
    have hspec : ({ axis with
        map := if (axis.map.map fun p =>
            (p.1, normalizeValue axis (LocValue.num p.2))).isEmpty then axis.map
          else axis.map.map fun p => (p.1, normalizeValue axis (LocValue.num p.2))
        minimum := normalizeValue axis (LocValue.num axis.minimum)
        maximum := normalizeValue axis (LocValue.num axis.maximum)
        default := normalizeValue axis (LocValue.num axis.default) } : AxisDescriptor)
        = normalizeAxisSpec axis := by
      rw [normalizeAxisSpec, hif]
    have hnd2 : (((done ++ [normalizeAxisSpec axis]) ++ rest).map AxisDescriptor.name).Nodup := by
      have hn : ((done ++ [normalizeAxisSpec axis]) ++ rest).map AxisDescriptor.name
          = (done ++ axis :: rest).map AxisDescriptor.name := by
        simp [normalizeAxisSpec]
      rw [hn]
      exact hnd
    simp only [normalizeAxesLoop, hmap, hget axis.minimum, hget axis.maximum,
      hget axis.default, hspec]
    rw [ih (done ++ [normalizeAxisSpec axis]) hnd2]
    simp

/-- C7: normalize replaces each axis map pair by a pair whose output
component is the normalization of the original output value against that
axis's original bounds, while the input component of every pair is left
unchanged. -/
theorem C7_normalize_axis_maps (doc doc1 : Document)
    (hnd : (doc.axes.map AxisDescriptor.name).Nodup)
    (h : normalizeDocument doc = Except.ok doc1) :
    doc1.axes.map (fun a => a.map)
      = doc.axes.map fun a =>
          a.map.map fun p => (p.1, normalizeValue a (LocValue.num p.2)) := by
  unfold normalizeDocument at h
  cases hs : exceptMapList (fun s =>
      match normalizeLocationE doc.axes s.location with
      | Except.error e => Except.error e
      | Except.ok l => Except.ok { s with location := some l }) doc.sources with
  | error e => rw [hs] at h; cases h
  | ok sources1 =>
    rw [hs] at h
    cases hi : exceptMapList (normalizeInstance doc.axes) doc.instances with
    | error e => rw [hi] at h; cases h
    | ok instances1 =>
      rw [hi] at h
      rw [normalizeAxesLoop_ok doc.axes [] (by simpa using hnd)] at h
      injection h with h2
      rw [← h2]
      simp [normalizeAxisSpec, List.map_map, Function.comp]

/-- Witness for C7 at the concrete one-axis document. -/
theorem C7_normalize_axis_maps_witness :
    c7doc1.axes.map (fun a => a.map)
      = c7doc.axes.map fun a =>
          a.map.map fun p => (p.1, normalizeValue a (LocValue.num p.2)) :=
  C7_normalize_axis_maps c7doc c7doc1 (by decide) (by rfl)

/-- Counterexample for C8: writing a document does not leave the stored
source location unchanged; the only source's location mentions just the
undeclared axis width, and after the write it has become the validated
location: the declared weight axis at its default, width dropped. -/
theorem C8_counterexample :
    (writeDocument c8doc).map (fun d => d.sources.map fun s => s.location)
      = Except.ok [some [("weight", LocValue.num 400)]]
    ∧ c8doc.sources.map (fun s => s.location) = [some [("width", LocValue.num 100)]] :=
  ⟨rfl, rfl⟩

theorem writeSources_ok (axes : List AxisDescriptor) (l : List SourceDescriptor)
    (ys : List SourceDescriptor) (h : exceptMapList (writeSource axes) l = Except.ok ys) :
    ys.map (fun s => s.location)
      = l.map fun s => s.location.map (validatedLocation axes) := by
  induction l generalizing ys with
  | nil =>
    simp only [exceptMapList, Except.ok.injEq] at h
    subst h
    rfl
  | cons s rest ih =>
    cases hw : writeSource axes s with
    | error e => rw [exceptMapList, hw] at h; cases h
    | ok b =>
      cases hr : exceptMapList (writeSource axes) rest with
      | error e => rw [exceptMapList, hw, hr] at h; cases h
      | ok bs =>
        rw [exceptMapList, hw, hr] at h
        injection h with h2
        subst h2
        have hb : b.location = s.location.map (validatedLocation axes) := by
          cases hl : s.location with
          | none => rw [writeSource, hl] at hw; cases hw
          | some l0 =>
            rw [writeSource, hl] at hw
            injection hw with hw2
            rw [← hw2]
            rfl
        simp only [List.map_cons, hb, ih bs hr]

theorem validatedLocation_self (axes : List AxisDescriptor) (l : Loc)
    (hnd : (axes.map AxisDescriptor.name).Nodup)
    (hkeys : l.map Prod.fst = axes.map AxisDescriptor.name) :
    validatedLocation axes l = l := by
  induction axes generalizing l with
  | nil =>
    cases l with
    | nil => rfl
    | cons p l2 => simp at hkeys
  | cons a rest ih =>
    cases l with
    | nil => simp at hkeys
    | cons p l2 =>
      simp only [List.map_cons, List.cons.injEq] at hkeys
      obtain ⟨hk1, hk2⟩ := hkeys
      simp only [List.map_cons, List.nodup_cons] at hnd
      unfold validatedLocation
      simp only [List.map_cons]
      have hlook : lookupKey a.name (p :: l2) = some p.2 := by
        simp [lookupKey, hk1.symm]
      have hstep : rest.map (fun a2 => (a2.name,
          match lookupKey a2.name (p :: l2) with
          | some v => v
          | none => LocValue.num a2.default))
          = validatedLocation rest l2 := by
        unfold validatedLocation
        apply List.map_congr_left
        intro a2 ha2
        have hne : a2.name ≠ p.1 := by
          rw [hk1]
          intro e
          exact hnd.1 (e ▸ List.mem_map_of_mem AxisDescriptor.name ha2)
        simp [lookupKey, if_neg hne]
      rw [hstep, ih l2 hnd.2 hk2, hlook]
      rw [show ((a.name, p.2) : String × LocValue) = p from Prod.ext_iff.mpr ⟨hk1.symm, rfl⟩]

/-- C8 amended: writing the document replaces every stored source location
and every present instance location by its validated form, the declared
axes' defaults overridden by the location's values at declared axis names;
in particular a location whose keys are exactly the declared axis names in
declaration order is left unchanged, but any other location is mutated by
the write (see the counterexample). -/
theorem C8_amended_write_validates (doc doc1 : Document)
    (h : writeDocument doc = Except.ok doc1) :
    doc1.sources.map (fun s => s.location)
      = doc.sources.map (fun s => s.location.map (validatedLocation doc.axes))
    ∧ doc1.instances.map (fun i => i.location)
      = doc.instances.map (fun i => i.location.map (validatedLocation doc.axes))
    ∧ ∀ l : Loc, (doc.axes.map AxisDescriptor.name).Nodup →
        l.map Prod.fst = doc.axes.map AxisDescriptor.name →
        validatedLocation doc.axes l = l := by
  unfold writeDocument at h
  cases hs : exceptMapList (writeSource doc.axes) doc.sources with
  | error e => rw [hs] at h; cases h
  | ok sources1 =>
    rw [hs] at h
    injection h with h2
    rw [← h2]
    refine ⟨writeSources_ok doc.axes doc.sources sources1 hs, ?_, ?_⟩
    · simp [writeInstance, List.map_map, Function.comp]
    · intro l hnd hkeys
      exact validatedLocation_self doc.axes l hnd hkeys

/-- Witness for C8 at a document whose source location is already total over
the declared axes, so the write leaves it unchanged. -/
theorem C8_amended_write_validates_witness :
    c8gooddoc.sources.map (fun s => s.location)
      = c8gooddoc.sources.map (fun s => s.location.map (validatedLocation c8gooddoc.axes)) :=
  (C8_amended_write_validates c8gooddoc c8gooddoc (by rfl)).1

/-- C10: normalize is only defined when every per-glyph override of every
instance carries both an instanceLocation and a masters entry; a document
containing an instance with a glyph override lacking either key makes
normalize raise a KeyError (modelled as an error result) instead of
completing. -/
theorem C10_normalize_requires_glyph_keys (doc : Document) (inst : InstanceDescriptor)
    (gname : String) (g : GlyphData) (hinst : inst ∈ doc.instances)
    (hg : (gname, g) ∈ inst.glyphs)
    (hbad : g.instanceLocation = none ∨ g.masters = none) :
    ∃ e, normalizeDocument doc = Except.error e := by
  unfold normalizeDocument
  cases hs : exceptMapList (fun s =>
      match normalizeLocationE doc.axes s.location with
      | Except.error e => Except.error e
      | Except.ok l => Except.ok { s with location := some l }) doc.sources with
  | error e => exact ⟨e, rfl⟩
  | ok sources1 =>
    cases hi : exceptMapList (normalizeInstance doc.axes) doc.instances with
    | error e => exact ⟨e, rfl⟩
    | ok instances1 =>
      exfalso
      obtain ⟨inst1, hinst1⟩ := exceptMapList_ok_forall _ _ _ hi inst hinst
      unfold normalizeInstance at hinst1
      cases hgs : exceptMapList (fun p =>
          match normalizeGlyphData doc.axes p.2 with
          | Except.error e => Except.error e
          | Except.ok g2 => Except.ok (p.1, g2)) inst.glyphs with
      | error e => rw [hgs] at hinst1; cases hinst1
      | ok glyphs1 =>
        obtain ⟨gp, hgp⟩ := exceptMapList_ok_forall _ _ _ hgs (gname, g) hg
        cases hng : normalizeGlyphData doc.axes g with
        | error e => rw [hng] at hgp; cases hgp
        | ok g1 =>
          unfold normalizeGlyphData at hng
          rcases hbad with hb | hb
          · rw [hb] at hng; cases hng
          · cases hil : g.instanceLocation with
            | none => rw [hil] at hng; cases hng
            | some il => rw [hil, hb] at hng; cases hng

/-- Witness for C10: the concrete document whose instance has a mute-only
glyph override makes normalize fail. -/
theorem C10_normalize_requires_glyph_keys_witness :
    ∃ e, normalizeDocument c10doc = Except.error e :=
  C10_normalize_requires_glyph_keys c10doc muteOnlyInst "x" muteOnlyGlyph
    (by decide) (by decide) (Or.inl rfl)

end UfoProcessor

